import Mathlib

/-
Verification of the Boolean-algebra internalization layer
(src/sat/smt/ba_internalize.cpp, namespace sat, class ba_solver).

Shallow embedding conventions:
  * sat::literal is a pair of a variable index and a polarity bit; in the
    solver, literal(v, true) denotes the negation of v.
  * rationals appearing as coefficients and thresholds are modelled as Int
    (the integral fragment; a non-integral rational fails is_unsigned just
    like a negative one, so rejected inputs are represented by out-of-range
    integers).
  * C++ `unsigned` arithmetic is Nat arithmetic modulo W = 2^32.
  * The external solver (s()) and the sub-expression internalizer (si) are
    modelled by an explicit State: a variable counter, the constraint store
    (add_pb_ge / add_at_least / add_xr / mk_clause append to it), and the
    term-to-literal cache written by si.cache.  Sub-term internalization
    (si.internalize on operands) is an external collaborator: a term carries
    the literal each of its arguments internalizes to.
  * default_exception thrown by check_unsigned is modelled as Except.error;
    the State is returned alongside so that mutations made before a throw
    persist, exactly as side effects on the solver do in the C++ code.
  * The optional cut simplifier hook in internalize_xor and the
    m_is_redundant flag are omitted: they do not affect the store contents,
    minted variables, or returned literals modelled here.
-/

set_option maxRecDepth 8192

namespace BaInternalize

/-- 2^32, the width of the C++ `unsigned` type used for coefficients and
thresholds. -/
def W : Nat := 4294967296

/-- `unsigned` addition: wraps modulo 2^32. -/
def uadd32 (a b : Nat) : Nat := (a + b) % W

/-- `unsigned` subtraction: wraps modulo 2^32. -/
def usub32 (a b : Nat) : Nat := (a + (W - b % W)) % W

/-- sat::literal: a Boolean variable index plus a polarity; `sign = true`
is the negated literal. -/
structure Lit where
  var : Nat
  sign : Bool
deriving DecidableEq

/-- literal::neg — flip the polarity. -/
def Lit.neg (l : Lit) : Lit := ⟨l.var, !l.sign⟩

/-- Constraints handed to the external store. `pb` is add_pb_ge's
pseudo-boolean threshold (weighted literals, lower bound k), `card` is
add_at_least's cardinality threshold, `xr` is add_xr's parity constraint
(which takes no tag), `clause` is s().mk_clause. A `none` tag is
null_bool_var: the constraint is asserted unconditionally. -/
inductive Constraint where
  | pb (tag : Option Nat) (wlits : List (Nat × Lit)) (k : Nat)
  | card (tag : Option Nat) (lits : List Lit) (k : Nat)
  | xr (lits : List Lit)
  | clause (lits : List Lit)
deriving DecidableEq

/-- External solver state visible to this layer: the fresh-variable
counter of s().add_var, the constraint store, and si's term→literal
cache (keyed by surface term identity). -/
structure State where
  nextVar : Nat
  store : List Constraint
  cache : List (Nat × Lit)
deriving DecidableEq

deriving instance DecidableEq for Except

/-- s().add_var: mint a fresh Boolean variable. -/
def addVar (st : State) : Nat × State :=
  (st.nextVar, { st with nextVar := st.nextVar + 1 })

/-- ba_solver::add_pb_ge: hand a pseudo-boolean >= constraint to the store. -/
def add_pb_ge (tag : Option Nat) (wlits : List (Nat × Lit)) (k : Nat)
    (st : State) : State :=
  { st with store := st.store ++ [Constraint.pb tag wlits k] }

/-- ba_solver::add_at_least: hand a cardinality >= constraint to the store. -/
def add_at_least (tag : Option Nat) (lits : List Lit) (k : Nat)
    (st : State) : State :=
  { st with store := st.store ++ [Constraint.card tag lits k] }

/-- ba_solver::add_xr: hand a parity constraint (no tag) to the store. -/
def add_xr (lits : List Lit) (st : State) : State :=
  { st with store := st.store ++ [Constraint.xr lits] }

/-- s().mk_clause on two literals. -/
def mk_clause2 (a b : Lit) (st : State) : State :=
  { st with store := st.store ++ [Constraint.clause [a, b]] }

/-- s().mk_clause on three literals. -/
def mk_clause3 (a b c : Lit) (st : State) : State :=
  { st with store := st.store ++ [Constraint.clause [a, b, c]] }

/-- si.cache(t, l): record the term→literal mapping for surface term `id`. -/
def cacheTerm (id : Nat) (l : Lit) (st : State) : State :=
  { st with cache := st.cache ++ [(id, l)] }

/-- The comparison kinds of the pb theory:
OP_AT_MOST_K, OP_AT_LEAST_K, OP_PB_LE, OP_PB_GE, OP_PB_EQ. -/
inductive PbKind where
  | atMostK
  | atLeastK
  | le
  | ge
  | eq
deriving DecidableEq

/-- A surface pseudo-boolean term as this layer reads it through the
pb_util accessors: its identity (cache key), its operator kind, its
argument list paired with the declared coefficient of each argument
(m_pb.get_coeff) and the literal that si.internalize produces for it,
and the threshold m_pb.get_k. -/
structure PbTerm where
  id : Nat
  kind : PbKind
  args : List (Int × Lit)
  k : Int
deriving DecidableEq

/-- The error message of the default_exception raised by check_unsigned. -/
def msgUnsigned : String := "unsigned coefficient expected"

/-- ba_solver::check_unsigned: a rational must be a non-negative integer
fitting in 32 bits, otherwise a default_exception is thrown. -/
def check_unsigned (c : Int) : Except String Unit :=
  if 0 ≤ c ∧ c < (W : Int) then Except.ok () else Except.error msgUnsigned

/-- rational::get_unsigned as applied after a mere SASSERT: truncation of
the integer to 32 bits (the debug assertion is not a runtime check). -/
def toUnsigned (k : Int) : Nat := k.toNat % W

/-- ba_solver::convert_to_wlits: pair each internalized argument literal
with its coefficient, checking every coefficient with check_unsigned. -/
def convert_to_wlits : List (Int × Lit) → Except String (List (Nat × Lit))
  | [] => Except.ok []
  | (c, l) :: rest =>
    match check_unsigned c with
    | Except.error e => Except.error e
    | Except.ok _ =>
      match convert_to_wlits rest with
      | Except.error e => Except.error e
      | Except.ok ws => Except.ok ((c.toNat, l) :: ws)

/-- ba_solver::convert_pb_args (literal_vector overload): internalize each
argument of the term; in this embedding the term already carries the
literal of each argument. -/
def convert_pb_args_lits (t : PbTerm) : List Lit := t.args.map Prod.snd

/-- ba_solver::convert_pb_args (wliteral overload): internalize the
arguments and pair them with their checked coefficients. -/
def convert_pb_args_wlits (t : PbTerm) : Except String (List (Nat × Lit)) :=
  convert_to_wlits t.args

/-- The in-place loop `for wl : wl.second.neg(); k1 += wl.first` over a
wliteral vector with an `unsigned` accumulator: complement every literal
and add every coefficient to the accumulator, wrapping modulo 2^32. -/
def negAccum : List (Nat × Lit) → Nat → List (Nat × Lit) × Nat
  | [], k1 => ([], k1)
  | (c, l) :: ws, k1 =>
    let r := negAccum ws (uadd32 k1 c)
    ((c, Lit.neg l) :: r.1, r.2)

/-- The in-place loop `for wl : wl.second.neg(); k += rational(wl.first)`
with a rational accumulator: complement every literal and add every
coefficient exactly. -/
def negAccumZ : List (Nat × Lit) → Int → List (Nat × Lit) × Int
  | [], k => ([], k)
  | (c, l) :: ws, k =>
    let r := negAccumZ ws (k + (c : Int))
    ((c, Lit.neg l) :: r.1, r.2)

/-- ba_solver::convert_pb_le (lines 115-144): convert to >=-shape by
negating every literal and recomputing the threshold as (sum of
coefficients) - k, check it, then apply the root-assertion policy;
at an unconditional root with sign, negate again with the unsigned
accumulator starting at 1 - k'. -/
def convert_pb_le (t : PbTerm) (root sign : Bool) (scopes : Nat)
    (st : State) : Except String (Option Lit) × State :=
  match convert_pb_args_wlits t with
  | Except.error e => (Except.error e, st)
  | Except.ok wlits0 =>
    let p := negAccumZ wlits0 (-t.k)
    let wlits := p.1
    let k := p.2
    match check_unsigned k with
    | Except.error e => (Except.error e, st)
    | Except.ok _ =>
      if root && scopes == 0 then
        let k1 := k.toNat
        let q := if sign then negAccum wlits (usub32 1 k1) else (wlits, k1)
        (Except.ok none, add_pb_ge none q.1 q.2 st)
      else
        let vs := addVar st
        let lit : Lit := ⟨vs.1, sign⟩
        (Except.ok (some lit), add_pb_ge (some vs.1) wlits k.toNat vs.2)

/-- ba_solver::convert_pb_ge (lines 147-171): check the threshold, then
apply the root-assertion policy; at an unconditional root with sign,
negate with the unsigned accumulator starting at 1 - k. -/
def convert_pb_ge (t : PbTerm) (root sign : Bool) (scopes : Nat)
    (st : State) : Except String (Option Lit) × State :=
  match check_unsigned t.k with
  | Except.error e => (Except.error e, st)
  | Except.ok _ =>
    match convert_pb_args_wlits t with
    | Except.error e => (Except.error e, st)
    | Except.ok wlits =>
      if root && scopes == 0 then
        let k1 := t.k.toNat
        let q := if sign then negAccum wlits (usub32 1 k1) else (wlits, k1)
        (Except.ok none, add_pb_ge none q.1 q.2 st)
      else
        let vs := addVar st
        let lit : Lit := ⟨vs.1, sign⟩
        (Except.ok (some lit), add_pb_ge (some vs.1) wlits t.k.toNat vs.2)

/-- ba_solver::convert_pb_eq (lines 173-203): decompose the equality into
>= k over the original literals and >= (sum - k) over the complemented
literals; base_assert (direct, untagged assertion of both halves) exactly
when root, not sign, and no open user scope; otherwise reify both halves
with v1, v2 and combine through v with three clauses. Note that the first
half is handed to the store before the second threshold is checked. -/
def convert_pb_eq (t : PbTerm) (root sign : Bool) (scopes : Nat)
    (st : State) : Except String (Option Lit) × State :=
  match convert_pb_args_wlits t with
  | Except.error e => (Except.error e, st)
  | Except.ok wlits =>
    let base_assert := root && !sign && scopes == 0
    let p1 : Option Nat × State :=
      if base_assert then (none, st) else
        let vs := addVar st
        (some vs.1, vs.2)
    let p2 : Option Nat × State :=
      if base_assert then (none, p1.2) else
        let vs := addVar p1.2
        (some vs.1, vs.2)
    let st3 := add_pb_ge p1.1 wlits (toUnsigned t.k) p2.2
    let q := negAccumZ wlits (-t.k)
    match check_unsigned q.2 with
    | Except.error e => (Except.error e, st3)
    | Except.ok _ =>
      let st4 := add_pb_ge p2.1 q.1 q.2.toNat st3
      if base_assert then (Except.ok none, st4)
      else
        match p1.1, p2.1 with
        | some w1, some w2 =>
          let l1 : Lit := ⟨w1, false⟩
          let l2 : Lit := ⟨w2, false⟩
          let vs := addVar st4
          let l : Lit := ⟨vs.1, false⟩
          let st6 := mk_clause2 (Lit.neg l) l1 vs.2
          let st7 := mk_clause2 (Lit.neg l) l2 st6
          let st8 := mk_clause3 (Lit.neg l1) (Lit.neg l2) l st7
          let st9 := cacheTerm t.id l st8
          (Except.ok (some (if sign then Lit.neg l else l)), st9)
        | _, _ => (Except.ok none, st4)

/-- ba_solver::convert_at_least_k (lines 205-227): literals unchanged; at
an unconditional root with sign, complement all literals and set the
threshold to size + 1 - k; otherwise reify, cache and sign-flip. -/
def convert_at_least_k (t : PbTerm) (k : Int) (root sign : Bool)
    (scopes : Nat) (st : State) : Except String (Option Lit) × State :=
  let lits := convert_pb_args_lits t
  let k2 := toUnsigned k
  if root && scopes == 0 then
    let q := if sign then (lits.map Lit.neg, usub32 (lits.length + 1) k2)
             else (lits, k2)
    (Except.ok none, add_at_least none q.1 q.2 st)
  else
    let vs := addVar st
    let lit : Lit := ⟨vs.1, false⟩
    let st2 := add_at_least (some vs.1) lits (toUnsigned k) vs.2
    let st3 := cacheTerm t.id lit st2
    (Except.ok (some (if sign then Lit.neg lit else lit)), st3)

/-- ba_solver::convert_at_most_k (lines 229-253): complement every literal
first and set the threshold to size - k, then proceed as at-least-k on
the complemented set. -/
def convert_at_most_k (t : PbTerm) (k : Int) (root sign : Bool)
    (scopes : Nat) (st : State) : Except String (Option Lit) × State :=
  let lits := (convert_pb_args_lits t).map Lit.neg
  let k2 := usub32 lits.length (toUnsigned k)
  if root && scopes == 0 then
    let q := if sign then (lits.map Lit.neg, usub32 (lits.length + 1) k2)
             else (lits, k2)
    (Except.ok none, add_at_least none q.1 q.2 st)
  else
    let vs := addVar st
    let lit : Lit := ⟨vs.1, false⟩
    let st2 := add_at_least (some vs.1) lits k2 vs.2
    let st3 := cacheTerm t.id lit st2
    (Except.ok (some (if sign then Lit.neg lit else lit)), st3)

/-- ba_solver::convert_eq_k (lines 255-281): the cardinality equality
decomposition. Note: unlike every other lowering path, the branch
condition is (root && !sign) alone — the number of open user scopes is
never consulted, so this function takes no scope argument at all. -/
def convert_eq_k (t : PbTerm) (k : Int) (root sign : Bool)
    (st : State) : Except String (Option Lit) × State :=
  let lits := convert_pb_args_lits t
  let p1 : Option Nat × State :=
    if root && !sign then (none, st) else
      let vs := addVar st
      (some vs.1, vs.2)
  let p2 : Option Nat × State :=
    if root && !sign then (none, p1.2) else
      let vs := addVar p1.2
      (some vs.1, vs.2)
  let st3 := add_at_least p1.1 lits (toUnsigned k) p2.2
  let lits2 := lits.map Lit.neg
  let st4 := add_at_least p2.1 lits2 (usub32 lits.length (toUnsigned k)) st3
  if !root || sign then
    match p1.1, p2.1 with
    | some w1, some w2 =>
      let l1 : Lit := ⟨w1, false⟩
      let l2 : Lit := ⟨w2, false⟩
      let vs := addVar st4
      let l : Lit := ⟨vs.1, false⟩
      let st6 := mk_clause2 (Lit.neg l) l1 vs.2
      let st7 := mk_clause2 (Lit.neg l) l2 st6
      let st8 := mk_clause3 (Lit.neg l1) (Lit.neg l2) l st7
      let st9 := cacheTerm t.id l st8
      (Except.ok (some (if sign then Lit.neg l else l)), st9)
    | _, _ => (Except.ok none, st4)
  else
    (Except.ok none, st4)

/-- m_pb.has_unit_coefficients. -/
def has_unit_coefficients (t : PbTerm) : Bool :=
  t.args.all fun a => a.1 == 1

/-- ba_solver::internalize_pb (lines 58-86): dispatch on the operator
kind; Le/Ge/Eq with unit coefficients degrade to the cardinality paths. -/
def internalize_pb (t : PbTerm) (sign root : Bool) (scopes : Nat)
    (st : State) : Except String (Option Lit) × State :=
  let k := t.k
  match t.kind with
  | PbKind.atMostK => convert_at_most_k t k root sign scopes st
  | PbKind.atLeastK => convert_at_least_k t k root sign scopes st
  | PbKind.le =>
    if has_unit_coefficients t then convert_at_most_k t k root sign scopes st
    else convert_pb_le t root sign scopes st
  | PbKind.ge =>
    if has_unit_coefficients t then convert_at_least_k t k root sign scopes st
    else convert_pb_ge t root sign scopes st
  | PbKind.eq =>
    if has_unit_coefficients t then convert_eq_k t k root sign st
    else convert_pb_eq t root sign scopes st

/-- The loop `for (i = 1; i + 1 < lits.size(); ++i) lits[i].neg();`
carried out positionally: element i of an n-element list is complemented
exactly when 1 <= i and i + 1 < n. -/
def negMiddleAux : Nat → Nat → List Lit → List Lit
  | _, _, [] => []
  | i, n, l :: ls =>
    (if 1 ≤ i ∧ i + 1 < n then Lit.neg l else l) :: negMiddleAux (i + 1) n ls

/-- Complement every literal of the list except the first and the last. -/
def negMiddle (lits : List Lit) : List Lit :=
  negMiddleAux 0 lits.length lits

/-- ba_solver::internalize_xor (lines 34-56): mint a closer variable v,
collect literal(v, true) followed by the internalized chain members in
order, complement all but the first and the last, register the parity
constraint, and return literal(v, sign). The input carries the literals
the chain members internalize to, leftmost first. -/
def internalize_xor (members : List Lit) (sign root : Bool)
    (st : State) : Option Lit × State :=
  let vs := addVar st
  let v := vs.1
  let lits : List Lit := ⟨v, true⟩ :: members
  let lits2 := negMiddle lits
  let st2 := add_xr lits2 vs.2
  (some ⟨v, sign⟩, st2)

/-- A surface term reaching ba_solver::internalize: a pseudo-boolean term
or an equivalence (xor) chain; any other shape is UNREACHABLE by the
caller's contract, hence absent from the type. -/
inductive Term where
  | pbT (t : PbTerm)
  | xorT (members : List Lit)

/-- ba_solver::internalize (lines 24-32). -/
def internalize (e : Term) (sign root : Bool) (scopes : Nat)
    (st : State) : Except String (Option Lit) × State :=
  match e with
  | Term.pbT t => internalize_pb t sign root scopes st
  | Term.xorT ms =>
    let r := internalize_xor ms sign root st
    (Except.ok r.1, r.2)

/-! Semantics of stored constraints, used to state logical-equivalence
claims. An assignment maps variable indices to truth values. -/

/-- Truth value of a literal under an assignment. -/
def Lit.sem (a : Nat → Bool) (l : Lit) : Bool :=
  if l.sign then !(a l.var) else a l.var

/-- Total weight of the true literals of a weighted literal list. -/
def weightTrue (a : Nat → Bool) : List (Nat × Lit) → Nat
  | [] => 0
  | (c, l) :: ws => (if Lit.sem a l then c else 0) + weightTrue a ws

/-- Number of true literals of a literal list. -/
def countTrue (a : Nat → Bool) : List Lit → Nat
  | [] => 0
  | l :: ls => (if Lit.sem a l then 1 else 0) + countTrue a ls

/-- Semantics of a pseudo-boolean body: total true weight at least k. -/
def pbHolds (a : Nat → Bool) (wlits : List (Nat × Lit)) (k : Nat) : Bool :=
  decide (k ≤ weightTrue a wlits)

/-- Semantics of a cardinality body: at least k true literals. -/
def cardHolds (a : Nat → Bool) (lits : List Lit) (k : Nat) : Bool :=
  decide (k ≤ countTrue a lits)

/-- Semantics of a stored constraint: an untagged constraint holds iff its
body does; a tagged constraint holds iff the tag variable agrees with the
body (the doubly-implied form); a parity constraint holds iff an odd
number of its literals are true; a clause holds iff some literal is. -/
def Constraint.semB (a : Nat → Bool) : Constraint → Bool
  | Constraint.pb none w k => pbHolds a w k
  | Constraint.pb (some v) w k => a v == pbHolds a w k
  | Constraint.card none l k => cardHolds a l k
  | Constraint.card (some v) l k => a v == cardHolds a l k
  | Constraint.xr l => countTrue a l % 2 == 1
  | Constraint.clause l => l.any (Lit.sem a)

/-- Pointwise logical equivalence of two lowering results: same returned
value (or same rejection), same variable counter, and stores whose
constraints are pointwise equivalent under every assignment. -/
def resultsEquiv (a : Nat → Bool) (x y : Except String (Option Lit) × State) :
    Prop :=
  x.1 = y.1 ∧ x.2.nextVar = y.2.nextVar ∧
    x.2.store.map (Constraint.semB a) = y.2.store.map (Constraint.semB a)

/-- Sign-flip of the returned literal of a lowering result, leaving the
state untouched. -/
def flipRet (x : Except String (Option Lit) × State) :
    Except String (Option Lit) × State :=
  (x.1.map fun o => o.map Lit.neg, x.2)

/-- Sum of the coefficients of a weighted literal list. -/
def sumC : List (Nat × Lit) → Nat
  | [] => 0
  | (c, _) :: ws => c + sumC ws

/-- The empty solver state. -/
def st0 : State := { nextVar := 0, store := [], cache := [] }

/-- An assignment over the four variables 0..3. -/
def asg4 (b0 b1 b2 b3 : Bool) : Nat → Bool := fun n =>
  if n == 0 then b0 else
  if n == 1 then b1 else
  if n == 2 then b2 else b3

/-! Concrete surface terms used as test inputs. xk stands for a positive
literal over variable k. -/

def x0 : Lit := ⟨0, false⟩
def x1 : Lit := ⟨1, false⟩
def x2 : Lit := ⟨2, false⟩
def x3 : Lit := ⟨3, false⟩

/-- EqK over two unit-coefficient literals with k = 1. -/
def tC1 : PbTerm := ⟨1, PbKind.eq, [(1, ⟨10, false⟩), (1, ⟨11, false⟩)], 1⟩

/-- PB-Eq over a single weight-1 literal with threshold 3 > total weight 1:
the complemented half's threshold 1 - 3 = -2 fails check_unsigned. -/
def tC2 : PbTerm := ⟨2, PbKind.eq, [(1, x0)], 3⟩

/-- The spec's concrete scenario 2: sum(2*x1, 3*x2, 1*x3) >= 4. -/
def tC3 : PbTerm := ⟨3, PbKind.ge, [(2, x1), (3, x2), (1, x3)], 4⟩

/-- sum(1*x1) >= 5: the negated threshold C + 1 - k = -3 is negative. -/
def tC5 : PbTerm := ⟨5, PbKind.ge, [(1, x1)], 5⟩

/-- The spec's concrete scenario 2 again, as fed to the reifying path. -/
def tC7 : PbTerm := ⟨7, PbKind.ge, [(2, x1), (3, x2), (1, x3)], 4⟩

/-- A unit-coefficient Le term whose threshold 2 exceeds its size 1. -/
def tC8 : PbTerm := ⟨20, PbKind.le, [(1, ⟨5, false⟩)], 2⟩

/-- A unit-coefficient Ge term for the C8 witness. -/
def tC8w : PbTerm := ⟨21, PbKind.ge, [(1, x1), (1, x2)], 1⟩

/-- A non-unit weighted Le term: sum(2*x0, 1*x1) <= 1. -/
def tC9 : PbTerm := ⟨9, PbKind.le, [(2, x0), (1, x1)], 1⟩

/-! Helper lemmas about the arithmetic and list operations. -/

theorem toUnsigned_eq (k : Int) (h0 : 0 ≤ k) (hW : k < (W : Int)) :
    toUnsigned k = k.toNat := by
  simp only [toUnsigned, W] at *
  omega

theorem usub32_exact (a b : Nat) (hb : b ≤ a) (ha : a < W) :
    usub32 a b = a - b := by
  simp only [usub32, W] at *
  omega

theorem usub32_shift (m b : Nat) : (usub32 1 b + m) % W = usub32 (m + 1) b := by
  simp only [usub32, W]
  omega

theorem negAccum_eq (ws : List (Nat × Lit)) (k1 : Nat) (h : k1 < W) :
    negAccum ws k1 =
      (ws.map fun cl => (cl.1, Lit.neg cl.2), (k1 + sumC ws) % W) := by
  induction ws generalizing k1 with
  | nil => simp [negAccum, sumC, Nat.mod_eq_of_lt h]
  | cons cl ws ih =>
    obtain ⟨c, l⟩ := cl
    have hlt : (k1 + c) % W < W := Nat.mod_lt _ (by simp [W])
    simp only [negAccum, uadd32, ih ((k1 + c) % W) hlt, sumC, List.map_cons]
    simp only [Prod.mk.injEq]
    refine ⟨trivial, ?_⟩
    rw [Nat.mod_add_mod]
    congr 1
    omega

theorem negAccumZ_eq (ws : List (Nat × Lit)) (k : Int) :
    negAccumZ ws k =
      (ws.map fun cl => (cl.1, Lit.neg cl.2), k + (sumC ws : Int)) := by
  induction ws generalizing k with
  | nil => simp [negAccumZ, sumC]
  | cons cl ws ih =>
    obtain ⟨c, l⟩ := cl
    simp only [negAccumZ, ih, sumC, List.map_cons]
    simp only [Prod.mk.injEq]
    refine ⟨trivial, ?_⟩
    push_cast
    ring

theorem convert_to_wlits_unit (args : List (Int × Lit))
    (h : (args.all fun a => a.1 == 1) = true) :
    convert_to_wlits args = Except.ok (args.map fun a => (1, a.2)) := by
  induction args with
  | nil => rfl
  | cons a args ih =>
    simp only [List.all_cons, Bool.and_eq_true, beq_iff_eq] at h
    obtain ⟨h1, h2⟩ := h
    simp [convert_to_wlits, h1, check_unsigned, W, ih h2]

theorem weightTrue_unit (a : Nat → Bool) (lits : List Lit) :
    weightTrue a (lits.map fun l => ((1 : Nat), l)) = countTrue a lits := by
  induction lits with
  | nil => rfl
  | cons l ls ih => simp [weightTrue, countTrue, ih]

theorem pbHolds_unit (a : Nat → Bool) (lits : List Lit) (k : Nat) :
    pbHolds a (lits.map fun l => ((1 : Nat), l)) k = cardHolds a lits k := by
  simp [pbHolds, cardHolds, weightTrue_unit]

theorem sumC_unit (lits : List Lit) :
    sumC (lits.map fun l => ((1 : Nat), l)) = lits.length := by
  induction lits with
  | nil => rfl
  | cons l ls ih =>
    simp [sumC, ih]
    omega

theorem lit_neg_neg (l : Lit) : Lit.neg (Lit.neg l) = l := by
  simp [Lit.neg]

theorem negMiddleAux_append (init : List Lit) (last : Lit) :
    ∀ i, 1 ≤ i →
      negMiddleAux i (i + init.length + 1) (init ++ [last]) =
        init.map Lit.neg ++ [last] := by
  induction init with
  | nil =>
    intro i hi
    simp only [List.nil_append, List.length_nil, List.map_nil, negMiddleAux]
    rw [if_neg (by omega)]
  | cons l ls ih =>
    intro i hi
    simp only [List.cons_append, List.length_cons, List.map_cons, negMiddleAux]
    rw [if_pos ⟨hi, by omega⟩]
    have h2 := ih (i + 1) (by omega)
    have harg : i + (ls.length + 1) + 1 = i + 1 + ls.length + 1 := by omega
    rw [harg]
    simp only [List.append_eq]
    rw [h2]

theorem negMiddle_closer (v : Nat) (init : List Lit) (last : Lit) :
    negMiddle (⟨v, true⟩ :: (init ++ [last])) =
      ⟨v, true⟩ :: (init.map Lit.neg ++ [last]) := by
  unfold negMiddle
  have hn : (⟨v, true⟩ :: (init ++ [last]) : List Lit).length =
      1 + init.length + 1 := by
    simp [List.length_append]
    omega
  rw [hn, negMiddleAux, if_neg (by omega)]
  congr 1
  exact negMiddleAux_append init last 1 (by omega)

/-! Claim theorems. -/

theorem negThreshold_arith (kn s : Nat) (h : kn < W) :
    (usub32 1 kn + s) % W = (((s : Int) + 1 - kn) % (W : Int)).toNat := by
  simp only [usub32, W] at *
  omega

/-- Claim C3. Negating sum(c_i*l_i) >= k at an unconditional root
(sign=true, isRoot=true, scopeDepth=0): every literal is complemented
(coefficients unchanged) and the constraint is asserted untagged with
threshold C + 1 - k reduced modulo 2^32, computed exactly as the code
does — an accumulator starts at 1 - k in unsigned arithmetic and each
literal's coefficient is added while the literal is complemented
(negAccum mirrors that loop). -/
theorem c3_negated_threshold (t : PbTerm) (st : State)
    (wl : List (Nat × Lit))
    (hw : convert_pb_args_wlits t = Except.ok wl)
    (hk0 : 0 ≤ t.k) (hkW : t.k < (W : Int)) :
    convert_pb_ge t true true 0 st =
      (Except.ok none,
       { st with store := st.store ++
           [Constraint.pb none (wl.map fun cl => (cl.1, Lit.neg cl.2))
              (((sumC wl : Int) + 1 - t.k) % (W : Int)).toNat] }) := by
  have hch : check_unsigned t.k = Except.ok () := by
    simp [check_unsigned]
    exact ⟨hk0, hkW⟩
  have hlt : usub32 1 t.k.toNat < W := Nat.mod_lt _ (by simp [W])
  unfold convert_pb_ge
  rw [hch, hw]
  simp only [negAccum_eq wl (usub32 1 t.k.toNat) hlt, add_pb_ge]
  have hknW : t.k.toNat < W := by
    simp only [W] at *
    omega
  have harith := negThreshold_arith t.k.toNat (sumC wl) hknW
  have hcast : ((t.k.toNat : Int)) = t.k := Int.toNat_of_nonneg hk0
  rw [hcast] at harith
  simp [harith]

/-- Claim C1. The claim says a direct, untagged assertion with no returned
literal happens exactly when isRoot is true and scopeDepth is 0. The code
contradicts it in convert_eq_k, which never consults the scope depth: the
unit-coefficient equality tC1, internalized at root with one open
backtracking scope (scopeDepth = 1), is asserted directly as two untagged
cardinality constraints and no literal is returned, although the claim
requires a minted variable and a returned Literal(v, false) there. By
contrast the weighted sibling convert_pb_eq does consult the scope depth
and reifies at the same context, returning Literal(v, false). -/
theorem c1_eq_k_ignores_scope_depth :
    internalize (Term.pbT tC1) false true 1 st0 =
      (Except.ok none,
       { nextVar := 0,
         store := [Constraint.card none [⟨10, false⟩, ⟨11, false⟩] 1,
                   Constraint.card none [⟨10, true⟩, ⟨11, true⟩] 1],
         cache := [] })
    ∧ (convert_pb_eq tC1 true false 1 st0).1 = Except.ok (some ⟨2, false⟩) := by
  constructor
  · decide
  · decide

/-- Claim C2, counterexample. The equality decomposition convert_pb_eq
hands its first half-constraint to the store before check_unsigned runs on
the second (complemented) threshold: for tC2 (PB-Eq of sum(1*x0) = 3, with
total weight 1 < 3) the call is rejected, yet the store has gained the
first half-constraint — the rejected term did affect the store, and the
lowering operation committed one of its two constraints. -/
theorem c2_counterexample :
    (convert_pb_eq tC2 false false 0 st0).1 = Except.error msgUnsigned
    ∧ (convert_pb_eq tC2 false false 0 st0).2.store =
        [Constraint.pb (some 0) [(1, ⟨0, false⟩)] 3]
    ∧ (convert_pb_eq tC2 false false 0 st0).2.store ≠ st0.store := by
  refine ⟨by decide, by decide, by decide⟩

/-- Claim C2 as amended: PB-Le and PB-Ge run every range check before
handing anything to the store, so a rejected call leaves the state
exactly as it was; the equality decomposition PB-Eq, however, checks the
complemented half's threshold only after the first half-constraint has
been handed over, so a rejected PB-Eq leaves exactly its first
half-constraint (untagged at an unconditional unsigned root, tagged with
v1 = nextVar otherwise) in the store. -/
theorem c2_amended (t : PbTerm) (root sign : Bool) (scopes : Nat)
    (st : State) (e : String) :
    ((convert_pb_le t root sign scopes st).1 = Except.error e →
      (convert_pb_le t root sign scopes st).2 = st)
    ∧ ((convert_pb_ge t root sign scopes st).1 = Except.error e →
      (convert_pb_ge t root sign scopes st).2 = st)
    ∧ (∀ wl, convert_pb_args_wlits t = Except.ok wl →
        (convert_pb_eq t root sign scopes st).1 = Except.error e →
        (convert_pb_eq t root sign scopes st).2.store =
          st.store ++ [Constraint.pb
            (if root && !sign && scopes == 0 then none else some st.nextVar)
            wl (toUnsigned t.k)]) := by
  refine ⟨?_, ?_, ?_⟩
  · unfold convert_pb_le
    cases h : convert_pb_args_wlits t with
    | error e2 => intro _; rfl
    | ok w =>
      cases hc : check_unsigned (negAccumZ w (-t.k)).2 with
      | error e2 => simp [hc]
      | ok u =>
        simp only [hc]
        split
        · intro habs
          simp at habs
        · intro habs
          simp at habs
  · unfold convert_pb_ge
    cases h : check_unsigned t.k with
    | error e2 => intro _; rfl
    | ok u =>
      cases h2 : convert_pb_args_wlits t with
      | error e2 => simp [h2]
      | ok w =>
        simp only [h2]
        split
        · intro habs
          simp at habs
        · intro habs
          simp at habs
  · intro wl hw
    unfold convert_pb_eq
    rw [hw]
    cases hc : check_unsigned (negAccumZ wl (-t.k)).2 with
    | error e2 =>
      simp only [hc]
      intro _
      by_cases hb : (root && !sign && scopes == 0) = true
      · simp [hb, addVar, add_pb_ge]
      · simp only [Bool.not_eq_true] at hb
        simp [hb, addVar, add_pb_ge]
    | ok u =>
      simp only [hc]
      by_cases hb : (root && !sign && scopes == 0) = true
      · simp only [hb, if_true]
        intro habs
        simp at habs
      · simp only [Bool.not_eq_true] at hb
        simp only [hb, Bool.false_eq_true, if_false]
        intro habs
        simp at habs

/-- Witness for C2: the rejected equality tC2 leaves exactly its first
half-constraint, tagged with v1 = 0, in the store. -/
theorem c2_amended_witness :
    (convert_pb_eq tC2 false false 0 st0).2.store =
      [Constraint.pb (some 0) [(1, ⟨0, false⟩)] 3] := by
  have h := (c2_amended tC2 false false 0 st0 msgUnsigned).2.2
    [(1, ⟨0, false⟩)] (by decide) (by decide)
  rw [h]
  decide

/-- Claim C9 as amended: the reifying PB-Le and PB-Ge conversions never
write the shared term→literal cache (in no branch, accepted or rejected);
of the weighted conversions only PB-Eq caches the surface-term→literal
mapping, recording Literal(v, false) for the combinator variable
v = nextVar + 2 whenever it completes its reified case. -/
theorem c9_amended (t : PbTerm) (root sign : Bool) (scopes : Nat)
    (st : State) :
    ((convert_pb_le t root sign scopes st).2.cache = st.cache)
    ∧ ((convert_pb_ge t root sign scopes st).2.cache = st.cache)
    ∧ (∀ wl r, convert_pb_args_wlits t = Except.ok wl →
        (root && !sign && scopes == 0) = false →
        (convert_pb_eq t root sign scopes st).1 = Except.ok r →
        (convert_pb_eq t root sign scopes st).2.cache =
          st.cache ++ [(t.id, ⟨st.nextVar + 2, false⟩)]) := by
  refine ⟨?_, ?_, ?_⟩
  · unfold convert_pb_le
    cases h : convert_pb_args_wlits t with
    | error e2 => rfl
    | ok w =>
      cases hc : check_unsigned (negAccumZ w (-t.k)).2 with
      | error e2 => simp [hc]
      | ok u =>
        simp only [hc]
        split
        · simp [add_pb_ge]
        · simp [add_pb_ge, addVar]
  · unfold convert_pb_ge
    cases h : check_unsigned t.k with
    | error e2 => rfl
    | ok u =>
      cases h2 : convert_pb_args_wlits t with
      | error e2 => simp [h2]
      | ok w =>
        simp only [h2]
        split
        · simp [add_pb_ge]
        · simp [add_pb_ge, addVar]
  · intro wl r hw hb
    unfold convert_pb_eq
    rw [hw]
    cases hc : check_unsigned (negAccumZ wl (-t.k)).2 with
    | error e2 =>
      simp only [hc]
      intro habs
      simp [hb] at habs
    | ok u =>
      simp only [hc]
      intro habs
      simp only [hb, Bool.false_eq_true, if_false]
      simp [addVar, add_pb_ge, mk_clause2, mk_clause3, cacheTerm]

/-- Witness for C9: the reifying PB-Le call on tC9 leaves the cache
untouched, while the reifying PB-Eq call on tC1 records the mapping for
its combinator variable. -/
theorem c9_amended_witness :
    (convert_pb_le tC9 false false 0 st0).2.cache = st0.cache
    ∧ (convert_pb_eq tC1 false false 0 st0).2.cache =
        st0.cache ++ [(1, ⟨2, false⟩)] := by
  constructor
  · exact (c9_amended tC9 false false 0 st0).1
  · exact (c9_amended tC1 false false 0 st0).2.2
      [(1, ⟨10, false⟩), (1, ⟨11, false⟩)] (some ⟨2, false⟩)
      (by decide) (by decide) (by decide)

/-- Claim C5. The claim says the recomputed negated threshold C + 1 - k is
checked to be non-negative and representable before assertion, and the
input rejected otherwise. The code performs no such check: for tC5
(sum(1*x1) >= 5 with sign=true at an unconditional root, C + 1 - k = -3)
the threshold wraps modulo 2^32 to 4294967293 and the constraint is
asserted with no rejection; the asserted constraint is unsatisfiable even
though the logical negation of sum(1*x1) >= 5 is a tautology. -/
theorem c5_wrapped_threshold_asserted :
    convert_pb_ge tC5 true true 0 st0 =
      (Except.ok none,
       { nextVar := 0,
         store := [Constraint.pb none [(1, ⟨1, true⟩)] 4294967293],
         cache := [] })
    ∧ pbHolds (fun _ => true) [(1, ⟨1, true⟩)] 4294967293 = false
    ∧ pbHolds (fun _ => false) [(1, ⟨1, true⟩)] 4294967293 = false := by
  refine ⟨by decide, by decide, by decide⟩

/-- Claim C6. For every equivalence chain (members given as the literals
its elements internalize to, leftmost first), internalize_xor mints a
closer variable v, builds the list Literal(v, true) followed by the chain
members in order, complements every literal except the first and the
last, registers the list as a parity constraint (which carries no tag),
and returns Literal(v, sign) — for every sign, isRoot and scope depth. -/
theorem c6_parity_chain (init : List Lit) (last : Lit) (sign root : Bool)
    (scopes : Nat) (st : State) :
    internalize (Term.xorT (init ++ [last])) sign root scopes st =
      (Except.ok (some ⟨st.nextVar, sign⟩),
       { st with
           nextVar := st.nextVar + 1,
           store := st.store ++
             [Constraint.xr
               (⟨st.nextVar, true⟩ :: (init.map Lit.neg ++ [last]))] }) := by
  unfold internalize internalize_xor
  simp only [addVar, add_xr, negMiddle_closer]

/-- Witness for C3: at the spec's scenario-2 term sum(2*x1, 3*x2, 1*x3)
>= 4 (C = 6), the negated root assertion stores the untagged constraint
sum(2*-x1, 3*-x2, 1*-x3) >= 3. -/
theorem c3_witness :
    convert_pb_ge tC3 true true 0 st0 =
      (Except.ok none,
       { nextVar := 0,
         store := [Constraint.pb none
           [(2, ⟨1, true⟩), (3, ⟨2, true⟩), (1, ⟨3, true⟩)] 3],
         cache := [] }) := by
  have h := c3_negated_threshold tC3 st0 [(2, x1), (3, x2), (1, x3)]
    (by decide) (by decide) (by decide)
  rw [h]
  decide

/-- Claim C4. In the reified case of the equality decomposition — for
PB-Eq whenever not (root and unsigned and scopeDepth 0), for EqK whenever
not (root and unsigned) — reification variables v1 = nextVar and
v2 = nextVar + 1 are minted and tag the two half-constraints (>= k over
the original literals; >= C - k, resp. n - k, over the complemented
literals), the combinator variable v = nextVar + 2 is constrained by
exactly the three clauses (-v or v1), (-v or v2), (-v1 or -v2 or v), and
the returned literal is Literal(v, sign). -/
theorem c4_reified_equality (t : PbTerm) (root sign : Bool) (scopes : Nat)
    (st : State) (wl : List (Nat × Lit))
    (hw : convert_pb_args_wlits t = Except.ok wl)
    (hk0 : 0 ≤ t.k) (hkW : t.k < (W : Int)) :
    ((root && !sign && scopes == 0) = false →
      t.k ≤ (sumC wl : Int) → (sumC wl : Int) - t.k < (W : Int) →
      convert_pb_eq t root sign scopes st =
        (Except.ok (some ⟨st.nextVar + 2, sign⟩),
         { nextVar := st.nextVar + 3,
           store := st.store ++
             [Constraint.pb (some st.nextVar) wl t.k.toNat,
              Constraint.pb (some (st.nextVar + 1))
                (wl.map fun cl => (cl.1, Lit.neg cl.2))
                ((sumC wl : Int) - t.k).toNat,
              Constraint.clause [⟨st.nextVar + 2, true⟩, ⟨st.nextVar, false⟩],
              Constraint.clause
                [⟨st.nextVar + 2, true⟩, ⟨st.nextVar + 1, false⟩],
              Constraint.clause [⟨st.nextVar, true⟩, ⟨st.nextVar + 1, true⟩,
                ⟨st.nextVar + 2, false⟩]],
           cache := st.cache ++ [(t.id, ⟨st.nextVar + 2, false⟩)] }))
    ∧ ((root && !sign) = false → t.k ≤ (t.args.length : Int) →
        (t.args.length : Int) < (W : Int) →
      convert_eq_k t t.k root sign st =
        (Except.ok (some ⟨st.nextVar + 2, sign⟩),
         { nextVar := st.nextVar + 3,
           store := st.store ++
             [Constraint.card (some st.nextVar) (convert_pb_args_lits t)
                t.k.toNat,
              Constraint.card (some (st.nextVar + 1))
                ((convert_pb_args_lits t).map Lit.neg)
                (t.args.length - t.k.toNat),
              Constraint.clause [⟨st.nextVar + 2, true⟩, ⟨st.nextVar, false⟩],
              Constraint.clause
                [⟨st.nextVar + 2, true⟩, ⟨st.nextVar + 1, false⟩],
              Constraint.clause [⟨st.nextVar, true⟩, ⟨st.nextVar + 1, true⟩,
                ⟨st.nextVar + 2, false⟩]],
           cache := st.cache ++ [(t.id, ⟨st.nextVar + 2, false⟩)] })) := by
  constructor
  · intro hbase hk1 hk2
    have hch : check_unsigned (-t.k + (sumC wl : Int)) = Except.ok () := by
      simp [check_unsigned]
      constructor
      · omega
      · omega
    unfold convert_pb_eq
    rw [hw]
    simp only [negAccumZ_eq, hbase, Bool.false_eq_true, if_false, hch,
      addVar, add_pb_ge, mk_clause2, mk_clause3, cacheTerm,
      toUnsigned_eq t.k hk0 hkW]
    have h2 : (-t.k + (sumC wl : Int)).toNat = ((sumC wl : Int) - t.k).toNat := by
      omega
    rw [h2]
    cases sign with
    | false => simp [Lit.neg, List.append_assoc]
    | true => simp [Lit.neg, List.append_assoc]
  · intro hbase hk1 hk2
    have hn : t.args.length < W := by
      simp only [W] at *
      omega
    have hkn : t.k.toNat ≤ t.args.length := by omega
    have hlen : (convert_pb_args_lits t).length = t.args.length := by
      simp [convert_pb_args_lits]
    unfold convert_eq_k
    simp only [hbase, Bool.false_eq_true, if_false, addVar, add_at_least,
      mk_clause2, mk_clause3, cacheTerm, toUnsigned_eq t.k hk0 hkW, hlen,
      usub32_exact t.args.length t.k.toNat hkn hn]
    have hcond : (!root || sign) = true := by
      cases root <;> cases sign <;> simp_all
    rw [hcond]
    cases sign with
    | false => simp [Lit.neg, List.append_assoc]
    | true => simp [Lit.neg, List.append_assoc]

/-- Witness for C4: the unit equality tC1 (k = 1 over two literals,
C = n = 2) internalized in the reified case (root=false, sign=false)
through both paths. -/
theorem c4_witness :
    convert_pb_eq tC1 false false 0 st0 =
      (Except.ok (some ⟨2, false⟩),
       { nextVar := 3,
         store :=
           [Constraint.pb (some 0) [(1, ⟨10, false⟩), (1, ⟨11, false⟩)] 1,
            Constraint.pb (some 1) [(1, ⟨10, true⟩), (1, ⟨11, true⟩)] 1,
            Constraint.clause [⟨2, true⟩, ⟨0, false⟩],
            Constraint.clause [⟨2, true⟩, ⟨1, false⟩],
            Constraint.clause [⟨0, true⟩, ⟨1, true⟩, ⟨2, false⟩]],
         cache := [(1, ⟨2, false⟩)] })
    ∧ convert_eq_k tC1 tC1.k false false st0 =
      (Except.ok (some ⟨2, false⟩),
       { nextVar := 3,
         store :=
           [Constraint.card (some 0) [⟨10, false⟩, ⟨11, false⟩] 1,
            Constraint.card (some 1) [⟨10, true⟩, ⟨11, true⟩] 1,
            Constraint.clause [⟨2, true⟩, ⟨0, false⟩],
            Constraint.clause [⟨2, true⟩, ⟨1, false⟩],
            Constraint.clause [⟨0, true⟩, ⟨1, true⟩, ⟨2, false⟩]],
         cache := [(1, ⟨2, false⟩)] }) := by
  have h := c4_reified_equality tC1 false false 0 st0
    [(1, ⟨10, false⟩), (1, ⟨11, false⟩)] (by decide) (by decide) (by decide)
  constructor
  · rw [h.1 (by decide) (by decide) (by decide)]
    decide
  · rw [h.2 (by decide) (by decide) (by decide)]
    decide

/-- Claim C7, counterexample. For t = sum(2*x1, 3*x2, 1*x3) >= 4 with
sign=true and isRoot=false, the stored constraint is the doubly-implied
form of the ORIGINAL predicate (original literal polarities, threshold 4),
not of the negated form sum(2*-x1, 3*-x2, 1*-x3) >= 3 that the claim says
is asserted. -/
theorem c7_counterexample :
    (convert_pb_ge tC7 false true 0 st0).2.store =
      [Constraint.pb (some 0)
        [(2, ⟨1, false⟩), (3, ⟨2, false⟩), (1, ⟨3, false⟩)] 4]
    ∧ (convert_pb_ge tC7 false true 0 st0).2.store ≠
      [Constraint.pb (some 0)
        [(2, ⟨1, true⟩), (3, ⟨2, true⟩), (1, ⟨3, true⟩)] 3] := by
  refine ⟨by decide, by decide⟩

/-- Claim C7 as amended: the reification variable v is minted and the
stored constraint is v doubly-implied with the original form
sum(2*x1, 3*x2, 1*x3) >= 4; the returned literal Literal(v, true) — the
complement of v — is what is logically equivalent to the negated form
sum(2*-x1, 3*-x2, 1*-x3) >= 3: under every assignment of the variables
v, x1, x2, x3, the stored constraint holds exactly when the returned
literal agrees with the negated form. -/
theorem c7_amended :
    convert_pb_ge tC7 false true 0 st0 =
      (Except.ok (some ⟨0, true⟩),
       { nextVar := 1,
         store := [Constraint.pb (some 0)
           [(2, ⟨1, false⟩), (3, ⟨2, false⟩), (1, ⟨3, false⟩)] 4],
         cache := [] })
    ∧ ∀ b0 b1 b2 b3 : Bool,
        Constraint.semB (asg4 b0 b1 b2 b3)
          (Constraint.pb (some 0)
            [(2, ⟨1, false⟩), (3, ⟨2, false⟩), (1, ⟨3, false⟩)] 4)
        = (Lit.sem (asg4 b0 b1 b2 b3) ⟨0, true⟩ ==
           pbHolds (asg4 b0 b1 b2 b3)
             [(2, ⟨1, true⟩), (3, ⟨2, true⟩), (1, ⟨3, true⟩)] 3) := by
  refine ⟨by decide, by decide⟩

/-- Claim C8, counterexample. For the unit-coefficient term tC8
("sum(1*x5) <= 2", threshold larger than the size) at an unconditional
root, the dispatcher's cardinality path accepts and asserts a constraint
whose threshold has wrapped to 4294967295, while the general weighted
path rejects the same term and leaves the state unchanged: the two
results are not logically equivalent (one is a rejection, the other a
committed, unsatisfiable constraint standing for a tautology). -/
theorem c8_counterexample :
    (internalize_pb tC8 false true 0 st0).1 = Except.ok none
    ∧ (internalize_pb tC8 false true 0 st0).2.store =
        [Constraint.card none [⟨5, true⟩] 4294967295]
    ∧ (convert_pb_le tC8 true false 0 st0).1 = Except.error msgUnsigned
    ∧ (convert_pb_le tC8 true false 0 st0).2 = st0 := by
  refine ⟨by decide, by decide, by decide, by decide⟩

/-- Claim C9, counterexample. The reifying (non-root) PB-Le and PB-Ge
conversions do NOT store a term→literal mapping: internalizing the
non-unit term tC9 with root=false mints and returns a literal but leaves
the cache exactly as it was (empty), for both the Le and the Ge path. -/
theorem c9_counterexample :
    (convert_pb_le tC9 false false 0 st0).1 = Except.ok (some ⟨0, false⟩)
    ∧ (convert_pb_le tC9 false false 0 st0).2.cache = []
    ∧ (convert_pb_ge tC9 false true 0 st0).1 = Except.ok (some ⟨0, true⟩)
    ∧ (convert_pb_ge tC9 false true 0 st0).2.cache = [] := by
  refine ⟨by decide, by decide, by decide, by decide⟩

theorem sumC_map_neg (ws : List (Nat × Lit)) :
    sumC (ws.map fun cl => (cl.1, Lit.neg cl.2)) = sumC ws := by
  induction ws with
  | nil => rfl
  | cons cl ws ih =>
    obtain ⟨c, l⟩ := cl
    simp [sumC, ih]

theorem map_lit_neg_neg (xs : List Lit) :
    (xs.map Lit.neg).map Lit.neg = xs := by
  rw [List.map_map]
  have h : Lit.neg ∘ Lit.neg = id := funext fun l => lit_neg_neg l
  rw [h, List.map_id]

theorem unit_map_neg (lits : List Lit) :
    ((lits.map fun l => ((1 : Nat), l)).map fun cl => (cl.1, Lit.neg cl.2)) =
      (lits.map Lit.neg).map fun l => ((1 : Nat), l) := by
  induction lits with
  | nil => rfl
  | cons l ls ih => simp [ih]

theorem args_wlits_unit (t : PbTerm) (hu : has_unit_coefficients t = true) :
    convert_pb_args_wlits t =
      Except.ok ((convert_pb_args_lits t).map fun l => ((1 : Nat), l)) := by
  unfold has_unit_coefficients at hu
  unfold convert_pb_args_wlits convert_pb_args_lits
  rw [convert_to_wlits_unit t.args hu]
  simp [List.map_map]

theorem semB_card_pb (a : Nat → Bool) (tag : Option Nat) (lits : List Lit)
    (k : Nat) :
    Constraint.semB a (Constraint.card tag lits k) =
      Constraint.semB a
        (Constraint.pb tag (lits.map fun l => ((1 : Nat), l)) k) := by
  cases tag with
  | none => simp [Constraint.semB, pbHolds_unit]
  | some v => simp [Constraint.semB, pbHolds_unit]

theorem atLeast_pbGe_equiv (t : PbTerm) (root sign : Bool) (scopes : Nat)
    (st : State) (hu : has_unit_coefficients t = true)
    (hk0 : 0 ≤ t.k) (hkW : t.k < (W : Int)) (a : Nat → Bool) :
    resultsEquiv a (convert_at_least_k t t.k root sign scopes st)
      (convert_pb_ge t root sign scopes st) := by
  have hch : check_unsigned t.k = Except.ok () := by
    simp [check_unsigned]
    exact ⟨hk0, hkW⟩
  have hwl := args_wlits_unit t hu
  have htu : toUnsigned t.k = t.k.toNat := toUnsigned_eq t.k hk0 hkW
  unfold resultsEquiv convert_at_least_k convert_pb_ge
  rw [hch, hwl]
  by_cases hr : (root && scopes == 0) = true
  · cases sign with
    | false =>
      simp only [hr, if_true, htu, Bool.false_eq_true, if_false,
        add_at_least, add_pb_ge, List.map_append, List.map_cons, List.map_nil]
      refine ⟨by trivial, by trivial, ?_⟩
      rw [semB_card_pb]
    | true =>
      have hacc := negAccum_eq
        ((convert_pb_args_lits t).map fun l => ((1 : Nat), l))
        (usub32 1 t.k.toNat) (Nat.mod_lt _ (by simp [W]))
      simp only [hr, if_true, htu, hacc, add_at_least, add_pb_ge,
        List.map_append, List.map_cons, List.map_nil, sumC_unit,
        unit_map_neg, usub32_shift]
      refine ⟨by trivial, by trivial, ?_⟩
      rw [semB_card_pb]
  · rw [Bool.not_eq_true] at hr
    cases sign with
    | false =>
      simp only [hr, Bool.false_eq_true, if_false, htu, addVar, add_at_least,
        add_pb_ge, cacheTerm, List.map_append, List.map_cons, List.map_nil]
      refine ⟨by trivial, by trivial, ?_⟩
      rw [semB_card_pb]
    | true =>
      simp only [hr, Bool.false_eq_true, if_true, if_false, htu, addVar,
        add_at_least, add_pb_ge, cacheTerm, List.map_append, List.map_cons,
        List.map_nil, Lit.neg]
      refine ⟨by trivial, by trivial, ?_⟩
      rw [semB_card_pb]

theorem atMost_pbLe_equiv (t : PbTerm) (root sign : Bool) (scopes : Nat)
    (st : State) (hu : has_unit_coefficients t = true)
    (hk0 : 0 ≤ t.k) (hkW : t.k < (W : Int))
    (hnW : ((convert_pb_args_lits t).length : Int) < (W : Int))
    (hkle : t.k ≤ ((convert_pb_args_lits t).length : Int)) (a : Nat → Bool) :
    resultsEquiv a (convert_at_most_k t t.k root sign scopes st)
      (convert_pb_le t root sign scopes st) := by
  have hwl := args_wlits_unit t hu
  have htu : toUnsigned t.k = t.k.toNat := toUnsigned_eq t.k hk0 hkW
  have hnn : (convert_pb_args_lits t).length < W := by
    simp only [W] at *
    omega
  have hknn : t.k.toNat ≤ (convert_pb_args_lits t).length := by omega
  have hsub := usub32_exact (convert_pb_args_lits t).length t.k.toNat hknn hnn
  have haccZ := negAccumZ_eq
    ((convert_pb_args_lits t).map fun l => ((1 : Nat), l)) (-t.k)
  have hch2 : check_unsigned
      (-t.k + ((convert_pb_args_lits t).length : Int)) = Except.ok () := by
    simp [check_unsigned]
    constructor
    · omega
    · omega
  have hq : (-t.k + ((convert_pb_args_lits t).length : Int)).toNat =
      (convert_pb_args_lits t).length - t.k.toNat := by omega
  unfold resultsEquiv convert_at_most_k convert_pb_le
  rw [hwl]
  simp only [haccZ, sumC_unit, hch2]
  by_cases hr : (root && scopes == 0) = true
  · cases sign with
    | false =>
      simp only [hr, if_true, Bool.false_eq_true, if_false, htu, hq, hsub,
        List.length_map, unit_map_neg, add_at_least, add_pb_ge,
        List.map_append, List.map_cons, List.map_nil]
      refine ⟨by trivial, by trivial, ?_⟩
      rw [semB_card_pb]
    | true =>
      have hacc := negAccum_eq
        (((convert_pb_args_lits t).map Lit.neg).map fun l => ((1 : Nat), l))
        (usub32 1 ((convert_pb_args_lits t).length - t.k.toNat))
        (Nat.mod_lt _ (by simp [W]))
      simp only [hr, if_true, htu, hq, hsub, List.length_map, unit_map_neg,
        hacc, map_lit_neg_neg, sumC_unit, usub32_shift, add_at_least,
        add_pb_ge, List.map_append, List.map_cons, List.map_nil]
      refine ⟨by trivial, by trivial, ?_⟩
      rw [semB_card_pb]
  · rw [Bool.not_eq_true] at hr
    cases sign with
    | false =>
      simp only [hr, Bool.false_eq_true, if_false, htu, hq, hsub,
        List.length_map, unit_map_neg, addVar, add_at_least, add_pb_ge,
        cacheTerm, List.map_append, List.map_cons, List.map_nil]
      refine ⟨by trivial, by trivial, ?_⟩
      rw [semB_card_pb]
    | true =>
      simp only [hr, Bool.false_eq_true, if_true, if_false, htu, hq, hsub,
        List.length_map, unit_map_neg, addVar, add_at_least, add_pb_ge,
        cacheTerm, List.map_append, List.map_cons, List.map_nil]
      refine ⟨by simp [Lit.neg], by trivial, ?_⟩
      rw [semB_card_pb]

theorem eqK_pbEq_equiv (t : PbTerm) (root sign : Bool) (scopes : Nat)
    (st : State) (hu : has_unit_coefficients t = true)
    (hk0 : 0 ≤ t.k) (hkW : t.k < (W : Int))
    (hnW : ((convert_pb_args_lits t).length : Int) < (W : Int))
    (hkle : t.k ≤ ((convert_pb_args_lits t).length : Int))
    (hsc : (root && !sign) = false ∨ scopes = 0) (a : Nat → Bool) :
    resultsEquiv a (convert_eq_k t t.k root sign st)
      (convert_pb_eq t root sign scopes st) := by
  have hwl := args_wlits_unit t hu
  have htu : toUnsigned t.k = t.k.toNat := toUnsigned_eq t.k hk0 hkW
  have hnn : (convert_pb_args_lits t).length < W := by
    simp only [W] at *
    omega
  have hknn : t.k.toNat ≤ (convert_pb_args_lits t).length := by omega
  have hsub := usub32_exact (convert_pb_args_lits t).length t.k.toNat hknn hnn
  have haccZ := negAccumZ_eq
    ((convert_pb_args_lits t).map fun l => ((1 : Nat), l)) (-t.k)
  have hch2 : check_unsigned
      (-t.k + ((convert_pb_args_lits t).length : Int)) = Except.ok () := by
    simp [check_unsigned]
    constructor
    · omega
    · omega
  have hq : (-t.k + ((convert_pb_args_lits t).length : Int)).toNat =
      (convert_pb_args_lits t).length - t.k.toNat := by omega
  unfold resultsEquiv convert_eq_k convert_pb_eq
  rw [hwl]
  cases root with
  | false =>
    simp only [haccZ, sumC_unit, hch2, htu, hq, hsub, List.length_map,
      unit_map_neg, addVar, add_at_least, add_pb_ge, mk_clause2, mk_clause3,
      cacheTerm, List.map_append, List.map_cons, List.map_nil, semB_card_pb,
      Bool.false_and, Bool.not_false, Bool.true_or, Bool.false_eq_true,
      if_false, if_true]
    refine ⟨by trivial, by trivial, by trivial⟩
  | true =>
    cases sign with
    | true =>
      simp only [haccZ, sumC_unit, hch2, htu, hq, hsub, List.length_map,
        unit_map_neg, addVar, add_at_least, add_pb_ge, mk_clause2, mk_clause3,
        cacheTerm, List.map_append, List.map_cons, List.map_nil, semB_card_pb,
        Bool.not_true, Bool.and_false, Bool.false_and, Bool.or_true,
        Bool.false_eq_true, if_false, if_true]
      refine ⟨by trivial, by trivial, by trivial⟩
    | false =>
      have hs0 : scopes = 0 := by
        rcases hsc with h | h
        · simp at h
        · exact h
      subst hs0
      have hz : (((0 : Nat)) == 0) = true := rfl
      simp only [haccZ, sumC_unit, hch2, htu, hq, hsub, List.length_map,
        unit_map_neg, addVar, add_at_least, add_pb_ge, mk_clause2, mk_clause3,
        cacheTerm, List.map_append, List.map_cons, List.map_nil, semB_card_pb,
        Bool.not_false, Bool.and_true, Bool.true_and, Bool.not_true,
        Bool.or_false, Bool.and_self, Bool.false_or, Bool.false_eq_true, hz,
        if_false, if_true]
      refine ⟨by trivial, by trivial, by trivial⟩

/-- Claim C8 as amended. Routing holds verbatim: a Le, Ge or Eq term with
unit coefficients is dispatched to the AtMostK, AtLeastK or EqK path with
the same threshold k. The logical equivalence with the general weighted
path holds for Ge unconditionally (given the threshold passes the range
check the weighted path applies), for Le and Eq only when k does not
exceed the number of literals (otherwise the weighted path rejects while
the cardinality path wraps the threshold modulo 2^32 and commits), and
for Eq additionally only outside a root assertion of an unnegated
equality under open scopes (where EqK asserts directly but PB-Eq
reifies). Equivalence means: same returned literal or rejection, same
fresh-variable consumption, and pointwise logically equivalent stored
constraints under every assignment. -/
theorem c8_amended (t : PbTerm) (root sign : Bool) (scopes : Nat)
    (st : State) (hu : has_unit_coefficients t = true)
    (hk0 : 0 ≤ t.k) (hkW : t.k < (W : Int))
    (hnW : ((convert_pb_args_lits t).length : Int) < (W : Int)) :
    (t.kind = PbKind.le →
      internalize_pb t sign root scopes st =
        convert_at_most_k t t.k root sign scopes st)
    ∧ (t.kind = PbKind.ge →
      internalize_pb t sign root scopes st =
        convert_at_least_k t t.k root sign scopes st)
    ∧ (t.kind = PbKind.eq →
      internalize_pb t sign root scopes st = convert_eq_k t t.k root sign st)
    ∧ (∀ a, resultsEquiv a (convert_at_least_k t t.k root sign scopes st)
        (convert_pb_ge t root sign scopes st))
    ∧ (t.k ≤ ((convert_pb_args_lits t).length : Int) →
      ∀ a, resultsEquiv a (convert_at_most_k t t.k root sign scopes st)
        (convert_pb_le t root sign scopes st))
    ∧ (t.k ≤ ((convert_pb_args_lits t).length : Int) →
      ((root && !sign) = false ∨ scopes = 0) →
      ∀ a, resultsEquiv a (convert_eq_k t t.k root sign st)
        (convert_pb_eq t root sign scopes st)) := by
  refine ⟨?_, ?_, ?_, ?_, ?_, ?_⟩
  · intro hkind
    unfold internalize_pb
    rw [hkind]
    simp [hu]
  · intro hkind
    unfold internalize_pb
    rw [hkind]
    simp [hu]
  · intro hkind
    unfold internalize_pb
    rw [hkind]
    simp [hu]
  · intro a
    exact atLeast_pbGe_equiv t root sign scopes st hu hk0 hkW a
  · intro hkle a
    exact atMost_pbLe_equiv t root sign scopes st hu hk0 hkW hnW hkle a
  · intro hkle hsc a
    exact eqK_pbEq_equiv t root sign scopes st hu hk0 hkW hnW hkle hsc a

/-- Witness for C8: the unit-coefficient Ge term tC8w ("at least 1 of
{x1, x2}") at root with no open scope, compared against the weighted
path, under the all-true assignment. -/
theorem c8_amended_witness :
    has_unit_coefficients tC8w = true
    ∧ (internalize_pb tC8w false true 0 st0 =
        convert_at_least_k tC8w tC8w.k true false 0 st0)
    ∧ resultsEquiv (fun _ => true)
        (convert_at_least_k tC8w tC8w.k true false 0 st0)
        (convert_pb_ge tC8w true false 0 st0) := by
  have h := c8_amended tC8w true false 0 st0 (by decide) (by decide)
    (by decide) (by decide)
  exact ⟨by decide, h.2.1 (by decide), h.2.2.2.1 (fun _ => true)⟩

/-- Claim C10. In every non-root conversion of an inequality constraint
(PB-Le, PB-Ge, AtLeastK, AtMostK), the result for sign=true is exactly
the result for sign=false with only the returned literal's polarity
flipped: the state — store contents (tag variable, literal polarities,
thresholds), variable counter and cache — is identical, and rejections
are identical. -/
theorem c10_sign_independence (t : PbTerm) (scopes : Nat) (st : State) :
    convert_pb_le t false true scopes st =
      flipRet (convert_pb_le t false false scopes st)
    ∧ convert_pb_ge t false true scopes st =
      flipRet (convert_pb_ge t false false scopes st)
    ∧ convert_at_least_k t t.k false true scopes st =
      flipRet (convert_at_least_k t t.k false false scopes st)
    ∧ convert_at_most_k t t.k false true scopes st =
      flipRet (convert_at_most_k t t.k false false scopes st) := by
  refine ⟨?_, ?_, ?_, ?_⟩
  · unfold convert_pb_le
    cases h : convert_pb_args_wlits t with
    | error e => simp [flipRet, Except.map]
    | ok w =>
      cases hc : check_unsigned (negAccumZ w (-t.k)).2 with
      | error e => simp [hc, flipRet, Except.map]
      | ok u => simp [hc, flipRet, Except.map, Option.map, addVar, Lit.neg]
  · unfold convert_pb_ge
    cases h : check_unsigned t.k with
    | error e => simp [flipRet, Except.map]
    | ok u =>
      cases h2 : convert_pb_args_wlits t with
      | error e => simp [h2, flipRet, Except.map]
      | ok w => simp [h2, flipRet, Except.map, Option.map, addVar, Lit.neg]
  · unfold convert_at_least_k
    simp [flipRet, Except.map, Option.map, addVar, Lit.neg]
  · unfold convert_at_most_k
    simp [flipRet, Except.map, Option.map, addVar, Lit.neg]

end BaInternalize
